import Mathlib

/-!
Verification development for the utaformatix-lib Rust crate
(`crates/rust/src`).  The definitions below are a shallow embedding of the
Rust source: data types from `model.rs` and `error.rs`, the error
classifier from `process.rs` (`wrap_error`), the request/response loop of
the interpreter host thread (`runner_entry_inner` / `runner_entry`), the
caller wrapper (`send_and_receive` in `wrapper.rs`), the cooperative job
queue (`job_queue.rs`) and the host capabilities `encode` / `decode`
(`js_impls.rs`, delegating to `encoding_rs`).  Byte values are modelled as
`Nat` (each < 256 where produced), 128-bit UUID nonces as `Nat`, and IEEE
doubles by their 64-bit pattern, since no claim computes with them.
-/

/-- Bit pattern of an IEEE 754 double (`f64` in the source); the claims
only ever move these values around, so the model keeps the raw pattern. -/
structure F64 where
  bits : Nat
deriving DecidableEq, Repr

/-- Format of the data, from `model.rs` (`enum Format`). -/
inductive Format where
  | StandardMid
  | MusicXml
  | Ccs
  | Dv
  | Ustx
  | Ppsf
  | S5p
  | Svp
  | Tssln
  | UfData
  | Ust
  | VocaloidMid
  | Vsq
  | Vsqx
  | Vpr
deriving DecidableEq, Repr

/-- Options for parsing data, from `model.rs` (`struct ParseOptions`). -/
structure ParseOptions where
  pitch : Bool
  default_lyric : String
deriving DecidableEq, Repr

/-- Default value of `ParseOptions`, from `impl Default for ParseOptions`
in `model.rs`. -/
def ParseOptions.default : ParseOptions :=
  { pitch := true, default_lyric := "あ" }

/-- Options for generating data, from `model.rs` (`struct GenerateOptions`,
deriving `Default`, so `pitch` defaults to `false`). -/
structure GenerateOptions where
  pitch : Bool
deriving DecidableEq, Repr

/-- Default value of `GenerateOptions` (derived `Default` in the source). -/
def GenerateOptions.default : GenerateOptions :=
  { pitch := false }

/-- Type of Japanese lyrics, from `model.rs` (`enum JapaneseLyricsType`). -/
inductive JapaneseLyricsType where
  | KanaCv
  | KanaVcv
  | RomajiCv
  | RomajiVcv
deriving DecidableEq, Repr

/-- Rendering of a `JapaneseLyricsType` as a string: the `strum::Display`
derive on the enum uses the variant name verbatim (no `serialize_all`
attribute is present). -/
def JapaneseLyricsType.to_string : JapaneseLyricsType → String
  | .KanaCv => "KanaCv"
  | .KanaVcv => "KanaVcv"
  | .RomajiCv => "RomajiCv"
  | .RomajiVcv => "RomajiVcv"

/-- Parsing of a `JapaneseLyricsType` from a string: the `strum::EnumString`
derive matches the exact variant name and yields `Err` (here `none`) on any
other string. -/
def JapaneseLyricsType.from_str (s : String) : Option JapaneseLyricsType :=
  if s = "KanaCv" then some .KanaCv
  else if s = "KanaVcv" then some .KanaVcv
  else if s = "RomajiCv" then some .RomajiCv
  else if s = "RomajiVcv" then some .RomajiVcv
  else none

/-- Options for converting Japanese lyrics, from `model.rs`
(`struct ConvertJapaneseLyricsOptions`, deriving `Default`). -/
structure ConvertJapaneseLyricsOptions where
  convert_vowel_connections : Bool
deriving DecidableEq, Repr

/-- Tempo object of UtaFormatix data v1, from `model.rs`. -/
structure Tempo where
  tick_position : Int
  bpm : Int
deriving DecidableEq, Repr

/-- Time signature object of UtaFormatix data v1, from `model.rs`. -/
structure TimeSignature where
  measure_position : Int
  numerator : Int
  denominator : Int
deriving DecidableEq, Repr

/-- Pitch object of UtaFormatix data v1, from `model.rs`. -/
structure Pitch where
  ticks : List Int
  values : List (Option F64)
  is_absolute : Bool
deriving DecidableEq, Repr

/-- Note object of UtaFormatix data v1, from `model.rs`. -/
structure Note where
  key : Int
  tick_on : Int
  tick_off : Int
  lyric : String
  phoneme : Option String
deriving DecidableEq, Repr

/-- Track object of UtaFormatix data v1, from `model.rs`. -/
structure Track where
  name : String
  notes : List Note
  pitch : Option Pitch
deriving DecidableEq, Repr

/-- Project object of UtaFormatix data v1, from `model.rs`
(`struct Project` in the data model, renamed here because the `Project`
wrapper of `project.rs` is modelled below under its own name). -/
structure UfProject where
  name : String
  tracks : List Track
  time_signatures : List TimeSignature
  tempos : List Tempo
  measure_prefix : Int
deriving DecidableEq, Repr

/-- Root document object of UtaFormatix data, from `model.rs`
(`struct UfData`). -/
structure UfData where
  format_version : Int
  project : UfProject
deriving DecidableEq, Repr

/-- Sub-kinds of an illegal-file error, from `error.rs`
(`enum IllegalFile`). -/
inductive IllegalFile where
  | UnknownVsqVersion
  | XmlRootNotFound
  | XmlElementNotFound (name : String)
  | IllegalXmlValue (name : String)
  | IllegalXmlAttribute (name : String) (attr : String)
  | IllegalMidiFile
  | IllegalTsslnFile
deriving DecidableEq, Repr

/-- Parsing of an `IllegalFile` from a string, from the `strum::EnumString`
derive in `error.rs`: the exact variant name matches, struct variants are
filled with `Default::default()` (the empty string), anything else is an
error (`none`). -/
def IllegalFile.from_str (s : String) : Option IllegalFile :=
  if s = "UnknownVsqVersion" then some .UnknownVsqVersion
  else if s = "XmlRootNotFound" then some .XmlRootNotFound
  else if s = "XmlElementNotFound" then some (.XmlElementNotFound "")
  else if s = "IllegalXmlValue" then some (.IllegalXmlValue "")
  else if s = "IllegalXmlAttribute" then some (.IllegalXmlAttribute "" "")
  else if s = "IllegalMidiFile" then some .IllegalMidiFile
  else if s = "IllegalTsslnFile" then some .IllegalTsslnFile
  else none

/-- Error that can occur during the conversion process, from `error.rs`
(`enum Error`). -/
inductive Error where
  | EmptyProject
  | IllegalFile (kind : IllegalFile)
  | IllegalNotePosition
  | NotesOverlapping
  | UnsupportedFileFormat
  | UnsupportedLegacyPpsf
  | Unexpected (description : String)
deriving DecidableEq, Repr

/-- Claim C8: the default `ParseOptions` enables pitch extraction and
carries a non-empty default filler lyric. -/
theorem parse_options_default_ok :
    ParseOptions.default.pitch = true ∧ ParseOptions.default.default_lyric ≠ "" := by
  constructor
  · rfl
  · intro h
    simp [ParseOptions.default] at h

/-- Value of a JavaScript error as seen by `wrap_error` in `process.rs`:
the classifier only interrogates it through `instance_of` checks against
the exception constructors exported by the bundled program (identified here
by their export name), the `constructor.name` string, and `to_string`
(which can itself fail, modelled by `none`). -/
structure JsErrorValue where
  instanceOf : String → Bool
  constructorName : String
  toStringRepr : Option String

/-- Static catalog of known failure identities, in the order `wrap_error`
iterates over them in `process.rs`. -/
def catalog : List (Error × String) :=
  [(Error.EmptyProject, "EmptyProjectException"),
   (Error.IllegalNotePosition, "IllegalNotePositionException"),
   (Error.NotesOverlapping, "NotesOverlappingException"),
   (Error.UnsupportedFileFormat, "UnsupportedFileFormatError"),
   (Error.UnsupportedLegacyPpsf, "UnsupportedLegacyPpsfError")]

/-- Every exception-class name `wrap_error` checks against, catalog entries
first and `IllegalFileException` last. -/
def catalogNames : List String :=
  catalog.map Prod.snd ++ ["IllegalFileException"]

/-- Outcome of the error classifier `wrap_error` in `process.rs`, acting on
a `JsResult`.  `none` models a panic of the host thread (the
`.expect("Failed to convert to IllegalFile")` call when the constructor
name of an `IllegalFileException` instance is not in the `IllegalFile`
catalog); the panics on malformed values (`as_object` and the like) are
out of the modelled paths. -/
def wrap_error {α : Type} (result : Except JsErrorValue α) :
    Option (Except Error α) :=
  match result with
  | .ok v => some (.ok v)
  | .error e =>
    match catalog.find? (fun p => e.instanceOf p.2) with
    | some p => some (.error p.1)
    | none =>
      if e.instanceOf "IllegalFileException" then
        match IllegalFile.from_str e.constructorName with
        | some kind => some (.error (Error.IllegalFile kind))
        | none => none
      else
        some (.error (Error.Unexpected (e.toStringRepr.getD "Unknown error")))

/-- Value coming back from a JavaScript call: the analysis path only
distinguishes strings from everything else. -/
inductive JsVal where
  | str (s : String)
  | other
deriving DecidableEq, Repr

/-- Model of `analyze_japanese_lyrics_type` in `process.rs`: the outcome of
the interpreter call (a `JsResult<JsValue>`) is passed through
`wrap_error`, a successful string result is parsed with
`JapaneseLyricsType::from_str` and the `Err` case of that parse is turned
into `None` by `.ok()`.  The outer `none` models a host-thread panic (the
`as_string().expect(..)` on a non-string success value, or a panic inside
`wrap_error`). -/
def analyze_japanese_lyrics_type (callResult : Except JsErrorValue JsVal) :
    Option (Except Error (Option JapaneseLyricsType)) :=
  match wrap_error callResult with
  | none => none
  | some (.error e) => some (.error e)
  | some (.ok v) =>
    match v with
    | .str s => some (.ok (JapaneseLyricsType.from_str s))
    | .other => none

/-- Wrapper around a document, from `project.rs` (`struct Project`). -/
structure Project where
  data : UfData
deriving DecidableEq, Repr

/-- Model of `Project::convert_japanese_lyrics` in `project.rs`.  The two
bridge calls the method makes through the process-wide `UtaFormatix`
instance are passed in as parameters: `analyze` stands for
`UtaFormatix::analyze_japanese_lyrics_type` and `convert` for
`UtaFormatix::convert_japanese_lyrics`; the method first resolves the
source type (using `analyze` when `source_type` is `None`, propagating its
error with `?`), returns the unchanged document when no type was
determined, and otherwise delegates to `convert`. -/
def Project.convert_japanese_lyrics
    (analyze : UfData → Except Error (Option JapaneseLyricsType))
    (convert : UfData → JapaneseLyricsType → JapaneseLyricsType →
      ConvertJapaneseLyricsOptions → Except Error UfData)
    (self : Project) (source_type : Option JapaneseLyricsType)
    (target_type : JapaneseLyricsType)
    (options : ConvertJapaneseLyricsOptions) : Except Error Project :=
  match (match source_type with
         | some st => Except.ok (some st)
         | none => analyze self.data) with
  | .error e => .error e
  | .ok none => .ok ⟨self.data⟩
  | .ok (some st) => (convert self.data st target_type options).map (fun d => ⟨d⟩)

/-- Claim C4: the error classifier maps a failure by identity against the
fixed catalog (first matching `instance_of` wins, and the hypotheses state
that exactly one catalog identity matches); an `IllegalFileException`
instance maps to `IllegalFile` with the sub-kind parsed from its
constructor name; a failure matching no catalog identity becomes
`Unexpected` carrying the textual rendering of the value. -/
theorem wrap_error_classification {α : Type} (e : JsErrorValue) :
    (∀ err name, (err, name) ∈ catalog →
      e.instanceOf name = true →
      (∀ n ∈ catalogNames, n ≠ name → e.instanceOf n = false) →
      wrap_error (α := α) (.error e) = some (.error err))
    ∧ (e.instanceOf "IllegalFileException" = true →
      (∀ p ∈ catalog, e.instanceOf p.2 = false) →
      ∀ kind, IllegalFile.from_str e.constructorName = some kind →
      wrap_error (α := α) (.error e) = some (.error (Error.IllegalFile kind)))
    ∧ ((∀ n ∈ catalogNames, e.instanceOf n = false) →
      wrap_error (α := α) (.error e)
        = some (.error (Error.Unexpected (e.toStringRepr.getD "Unknown error")))) := by
  refine ⟨?_, ?_, ?_⟩
  · intro err name hmem hinst hothers
    have hfind : catalog.find? (fun p => e.instanceOf p.2) = some (err, name) := by
      simp [catalog] at hmem
      rcases hmem with ⟨rfl, rfl⟩ | ⟨rfl, rfl⟩ | ⟨rfl, rfl⟩ | ⟨rfl, rfl⟩ | ⟨rfl, rfl⟩ <;>
        simp_all [catalog, catalogNames, List.find?]
    simp [wrap_error, hfind]
  · intro hinst hcat kind hkind
    have hfind : catalog.find? (fun p => e.instanceOf p.2) = none := by
      simp_all [catalog, catalogNames, List.find?]
    simp [wrap_error, hfind, hinst, hkind]
  · intro hall
    have hfind : catalog.find? (fun p => e.instanceOf p.2) = none := by
      simp_all [catalog, catalogNames, List.find?]
    have hill : e.instanceOf "IllegalFileException" = false := by
      exact hall _ (by simp [catalogNames, catalog])
    simp [wrap_error, hfind, hill]

/-- Concrete error value for the witness: an instance of exactly
`NotesOverlappingException`. -/
def notesOverlappingValue : JsErrorValue :=
  { instanceOf := fun n => n = "NotesOverlappingException"
    constructorName := "NotesOverlappingException"
    toStringRepr := some "NotesOverlappingException: ..." }

/-- Witness for claim C4 at a concrete input: a value that is an instance
of `NotesOverlappingException` alone is classified as `NotesOverlapping`. -/
theorem wrap_error_classification_witness :
    wrap_error (α := Unit) (.error notesOverlappingValue)
      = some (.error Error.NotesOverlapping) :=
  (wrap_error_classification notesOverlappingValue).1
    Error.NotesOverlapping "NotesOverlappingException"
    (by simp [catalog])
    (by simp [notesOverlappingValue])
    (by intro n hn hne
        simp [catalogNames, catalog] at hn
        rcases hn with rfl | rfl | rfl | rfl | rfl | rfl <;>
          simp_all [notesOverlappingValue])

/-- Claim C10: when the interpreter call succeeds with a string, the
analysis returns `Ok (Some t)` exactly when the string is variant `t`'s
name, and `Ok None` (never an error) when the string is none of the four
variant names. -/
theorem analyze_japanese_lyrics_type_total (s : String) :
    (∀ t : JapaneseLyricsType,
      analyze_japanese_lyrics_type (.ok (.str s)) = some (.ok (some t))
        ↔ s = t.to_string)
    ∧ ((s ≠ "KanaCv" ∧ s ≠ "KanaVcv" ∧ s ≠ "RomajiCv" ∧ s ≠ "RomajiVcv") →
      analyze_japanese_lyrics_type (.ok (.str s)) = some (.ok none)) := by
  have key : analyze_japanese_lyrics_type (.ok (.str s))
      = some (.ok (JapaneseLyricsType.from_str s)) := rfl
  constructor
  · intro t
    rw [key]
    simp only [Option.some.injEq, Except.ok.injEq]
    rcases t <;>
      simp [JapaneseLyricsType.from_str, JapaneseLyricsType.to_string] <;>
      split_ifs <;> simp_all
  · rintro ⟨h1, h2, h3, h4⟩
    rw [key]
    simp [JapaneseLyricsType.from_str, h1, h2, h3, h4]

/-- Witness for claim C10 at a concrete input: the string "Unknown" is not
a variant name and yields `Ok None`. -/
theorem analyze_japanese_lyrics_type_total_witness :
    analyze_japanese_lyrics_type (.ok (.str "Unknown")) = some (.ok none) :=
  (analyze_japanese_lyrics_type_total "Unknown").2
    (by refine ⟨?_, ?_, ?_, ?_⟩ <;> decide)

/-- Claim C9: with `source_type == None`, when the lyrics-type analysis
determines no type, `Project::convert_japanese_lyrics` returns `Ok` of a
project whose data is the original document unchanged; the statement is
quantified over an arbitrary `convert` oracle, so the conversion call
cannot have contributed to the result. -/
theorem convert_japanese_lyrics_no_type_identity
    (analyze : UfData → Except Error (Option JapaneseLyricsType))
    (convert : UfData → JapaneseLyricsType → JapaneseLyricsType →
      ConvertJapaneseLyricsOptions → Except Error UfData)
    (d : UfData) (target_type : JapaneseLyricsType)
    (options : ConvertJapaneseLyricsOptions)
    (h : analyze d = .ok none) :
    Project.convert_japanese_lyrics analyze convert ⟨d⟩ none target_type options
      = .ok ⟨d⟩ := by
  simp [Project.convert_japanese_lyrics, h]

/-- Concrete document used by witnesses: one empty project. -/
def sampleUfData : UfData :=
  { format_version := 1
    project :=
      { name := "sample"
        tracks := []
        time_signatures := []
        tempos := []
        measure_prefix := 0 } }

/-- Witness for claim C9 at a concrete input: an analysis oracle finding no
type and a conversion oracle that would change the document. -/
theorem convert_japanese_lyrics_no_type_identity_witness :
    Project.convert_japanese_lyrics (fun _ => .ok none)
      (fun _ _ _ _ => .error Error.EmptyProject) ⟨sampleUfData⟩ none
      JapaneseLyricsType.KanaCv ⟨false⟩
      = .ok ⟨sampleUfData⟩ :=
  convert_japanese_lyrics_no_type_identity _ _ _ _ _ rfl

/-- Envelope of the request/response protocol, from `process.rs`
(`struct Message<T>`): a payload plus a correlation nonce.  The source
nonce is a random 128-bit UUID; the model keeps it as a `Nat`. -/
structure Message (α : Type) where
  message : α
  nonce : Nat
deriving Repr

/-- Request payloads, from `process.rs` (`enum RequestMessageData`).  Byte
buffers are lists of byte values. -/
inductive RequestMessageData where
  | ParseSingle (data : List Nat) (options : ParseOptions) (format : Format)
  | ParseMultiple (data : List (List Nat)) (options : ParseOptions) (format : Format)
  | GenerateSingle (data : UfData) (options : GenerateOptions) (format : Format)
  | GenerateMultiple (data : UfData) (options : GenerateOptions) (format : Format)
  | AnalyzeJapaneseLyricsType (data : UfData)
  | ConvertJapaneseLyrics (data : UfData)
      (source_type : JapaneseLyricsType) (target_type : JapaneseLyricsType)
      (options : ConvertJapaneseLyricsOptions)
deriving Repr

/-- Response payloads, from `process.rs` (`enum ResponseMessageData`). -/
inductive ResponseMessageData where
  | Panic
  | Parse (result : Except Error UfData)
  | GenerateSingle (result : Except Error (List Nat))
  | GenerateMultiple (result : Except Error (List (List Nat)))
  | AnalyzeJapaneseLyricsType (result : Except Error (Option JapaneseLyricsType))
  | ConvertJapaneseLyrics (result : Except Error UfData)
deriving Repr

/-- Test for the terminal fault marker, the
`matches!(message, ResponseMessageData::Panic)` check of `wrapper.rs`. -/
def ResponseMessageData.isPanic : ResponseMessageData → Bool
  | .Panic => true
  | _ => false

/-- Oracles for the six interpreter operations the host thread can invoke;
they stand for the opaque bundled program driven to completion by the job
scheduler (`parse_single` .. `convert_japanese_lyrics` in `process.rs`). -/
structure Handlers where
  parse_single : Format → List Nat → ParseOptions → Except Error UfData
  parse_multiple : Format → List (List Nat) → ParseOptions → Except Error UfData
  generate_single : Format → UfData → GenerateOptions → Except Error (List Nat)
  generate_multiple : Format → UfData → GenerateOptions →
    Except Error (List (List Nat))
  analyze : UfData → Except Error (Option JapaneseLyricsType)
  convert : UfData → JapaneseLyricsType → JapaneseLyricsType →
    ConvertJapaneseLyricsOptions → Except Error UfData

/-- One arm of the `match message` in the receive loop of
`runner_entry_inner`: each request variant is answered with the matching
response variant. -/
def handleRequest (h : Handlers) : RequestMessageData → ResponseMessageData
  | .ParseSingle data options format =>
    .Parse (h.parse_single format data options)
  | .ParseMultiple data options format =>
    .Parse (h.parse_multiple format data options)
  | .GenerateSingle data options format =>
    .GenerateSingle (h.generate_single format data options)
  | .GenerateMultiple data options format =>
    .GenerateMultiple (h.generate_multiple format data options)
  | .AnalyzeJapaneseLyricsType data =>
    .AnalyzeJapaneseLyricsType (h.analyze data)
  | .ConvertJapaneseLyrics data source_type target_type options =>
    .ConvertJapaneseLyrics (h.convert data source_type target_type options)

/-- Receive loop of `runner_entry_inner` in `process.rs`: requests are
dequeued one at a time from the request channel until it closes; each is
handled to completion and answered with a response tagged with the nonce
of the request just handled, before the next request is dequeued. -/
def runnerLoop (h : Handlers) :
    List (Message RequestMessageData) → List (Message ResponseMessageData)
  | [] => []
  | r :: rest =>
    { message := handleRequest h r.message, nonce := r.nonce }
      :: runnerLoop h rest

/-- Observable host-thread steps for the temporal claims: dequeuing a
request, running its interpreter work, and sending its response, each
tagged with the nonce of the request concerned. -/
inductive Event where
  | dequeue (nonce : Nat)
  | work (nonce : Nat)
  | send (nonce : Nat)
deriving DecidableEq, Repr

/-- Event trace of the receive loop of `runner_entry_inner`: the loop body
is strictly sequential (`recv_blocking`, then the awaited handler, then
`send_blocking`), so each iteration contributes its three events before
the next iteration starts. -/
def runnerEvents : List (Message RequestMessageData) → List Event
  | [] => []
  | r :: rest =>
    .dequeue r.nonce :: .work r.nonce :: .send r.nonce :: runnerEvents rest

/-- Outcome of one wrapped call as seen by a caller of `send_and_receive`
in `wrapper.rs`. -/
inductive CallOutcome where
  | sendFailed
  | panicked
  | response (r : ResponseMessageData)
  | recvFailed
deriving Repr

/-- Receive side of the `send_and_receive` macro in `wrapper.rs`: the
caller loops over the responses it dequeues, first checking for the
terminal `Panic` marker (which makes the caller panic), then accepting a
matching nonce and otherwise continuing to receive.  The argument list is
the sequence of messages this caller dequeues from the shared response
channel; its end models the channel being closed and drained, where
`recv()` returns an error. -/
def receiveLoop (sentNonce : Nat) :
    List (Message ResponseMessageData) → CallOutcome
  | [] => .recvFailed
  | m :: rest =>
    if m.message.isPanic then .panicked
    else if sentNonce = m.nonce then .response m.message
    else receiveLoop sentNonce rest

/-- Whole `send_and_receive` macro of `wrapper.rs`: sending on the request
channel fails when the channel has no live receiver (the host thread is
gone), surfacing an infrastructure error; otherwise the caller enters the
receive loop. -/
def send_and_receive (requestChannelOpen : Bool)
    (delivered : List (Message ResponseMessageData))
    (req : Message RequestMessageData) : CallOutcome :=
  if requestChannelOpen then receiveLoop req.nonce delivered else .sendFailed

/-- Response stream produced by `runner_entry` in `process.rs`:
`runner_entry_inner` runs under `catch_unwind` and answers the requests it
processes; when the inner loop panics (after having fully processed
`processed`), the panic handler sends exactly one terminal `Panic`
message, tagged with a fresh nonce, and the thread exits (closing both
channels). -/
def runner_entry (h : Handlers) (processed : List (Message RequestMessageData))
    (panicked : Bool) (panicNonce : Nat) :
    List (Message ResponseMessageData) :=
  runnerLoop h processed
    ++ (if panicked then [{ message := .Panic, nonce := panicNonce }] else [])

/-- Claim C1: the host thread answers the requests it dequeues one by one,
tagging each response with exactly the nonce of the request it answers
(first conjunct, over the whole response stream), and the awaiting caller
accepts only a response carrying its own nonce, skipping every
non-matching, non-fault response before it (second conjunct). -/
theorem nonce_correlation (h : Handlers)
    (reqs : List (Message RequestMessageData)) :
    ((runnerLoop h reqs).map Message.nonce = reqs.map Message.nonce)
    ∧ (∀ (n : Nat) (pre post : List (Message ResponseMessageData))
        (m : Message ResponseMessageData),
        (∀ m2 ∈ pre, m2.nonce ≠ n ∧ m2.message.isPanic = false) →
        m.nonce = n → m.message.isPanic = false →
        receiveLoop n (pre ++ m :: post) = .response m.message) := by
  constructor
  · induction reqs with
    | nil => rfl
    | cons r rest ih => simp [runnerLoop, ih]
  · intro n pre post m hpre hm hpanic
    induction pre with
    | nil =>
      simp [receiveLoop, hpanic, hm]
    | cons p rest ih =>
      have hp := hpre p (by simp)
      have hrest : ∀ m2 ∈ rest, m2.nonce ≠ n ∧ m2.message.isPanic = false :=
        fun m2 hm2 => hpre m2 (by simp [hm2])
      have hne : ¬(n = p.nonce) := fun hq => hp.1 hq.symm
      simp [receiveLoop, hp.2, hne, ih hrest]

/-- Handlers used by witnesses: every operation reports an unexpected
error, which is enough to exercise the protocol layer. -/
def trivialHandlers : Handlers :=
  { parse_single := fun _ _ _ => .error (.Unexpected "unused")
    parse_multiple := fun _ _ _ => .error (.Unexpected "unused")
    generate_single := fun _ _ _ => .error (.Unexpected "unused")
    generate_multiple := fun _ _ _ => .error (.Unexpected "unused")
    analyze := fun _ => .error (.Unexpected "unused")
    convert := fun _ _ _ _ => .error (.Unexpected "unused") }

/-- Witness for claim C1 at concrete inputs: the runner answers a
one-request stream with the request's nonce, and a caller holding nonce 7
skips a response tagged 3 and accepts the one tagged 7. -/
theorem nonce_correlation_witness :
    (runnerLoop trivialHandlers
        [{ message := .AnalyzeJapaneseLyricsType sampleUfData, nonce := 7 }]).map
        Message.nonce = [7]
    ∧ receiveLoop 7
        [{ message := .Parse (.ok sampleUfData), nonce := 3 },
         { message := .AnalyzeJapaneseLyricsType (.ok none), nonce := 7 }]
        = .response (.AnalyzeJapaneseLyricsType (.ok none)) := by
  constructor
  · exact (nonce_correlation trivialHandlers
      [{ message := .AnalyzeJapaneseLyricsType sampleUfData, nonce := 7 }]).1
  · exact (nonce_correlation trivialHandlers []).2 7
      [{ message := .Parse (.ok sampleUfData), nonce := 3 }] []
      { message := .AnalyzeJapaneseLyricsType (.ok none), nonce := 7 }
      (by intro m2 hm2
          simp at hm2
          subst hm2
          exact ⟨by decide, rfl⟩)
      rfl rfl

/-- Claim C2: the host-thread event trace is the strictly sequential
concatenation of dequeue/work/send triples, one per request in dequeue
order: request `i` occupies exactly positions `3i`, `3i+1` and `3i+2` of
the trace, and since `3i+2 < 3j+1` for `i < j`, the interpreter work of a
later request never begins before the response of an earlier one has been
sent. -/
theorem no_pipelining (reqs : List (Message RequestMessageData)) :
    (runnerEvents reqs).length = 3 * reqs.length
    ∧ (∀ i, (hi : i < reqs.length) →
        (runnerEvents reqs)[3*i]? = some (Event.dequeue reqs[i].nonce)
        ∧ (runnerEvents reqs)[3*i+1]? = some (Event.work reqs[i].nonce)
        ∧ (runnerEvents reqs)[3*i+2]? = some (Event.send reqs[i].nonce))
    ∧ (∀ i j : Nat, i < j → 3*i+2 < 3*j+1) := by
  refine ⟨?_, ?_, fun i j hij => by omega⟩
  · induction reqs with
    | nil => rfl
    | cons r rest ih => simp [runnerEvents, ih]; ring
  · induction reqs with
    | nil => exact fun i hi => absurd hi (by simp)
    | cons r rest ih =>
      intro i hi
      cases i with
      | zero => simp [runnerEvents]
      | succ n =>
        have hn : n < rest.length := by simpa using hi
        have h3 : 3 * (n + 1) = (3 * n) + 3 := by ring
        have hrec := ih n hn
        refine ⟨?_, ?_, ?_⟩ <;>
          simp [runnerEvents, h3, Nat.add_assoc] <;>
          simp [hrec.1, hrec.2.1, hrec.2.2]

/-- Witness for claim C2 at a concrete input: with two queued requests the
send event of the first sits at position 2, before the work event of the
second at position 4. -/
theorem no_pipelining_witness :
    (runnerEvents
        [{ message := .AnalyzeJapaneseLyricsType sampleUfData, nonce := 1 },
         { message := .AnalyzeJapaneseLyricsType sampleUfData, nonce := 2 }])[2]?
      = some (Event.send 1)
    ∧ (runnerEvents
        [{ message := .AnalyzeJapaneseLyricsType sampleUfData, nonce := 1 },
         { message := .AnalyzeJapaneseLyricsType sampleUfData, nonce := 2 }])[4]?
      = some (Event.work 2)
    ∧ (2 : Nat) < 4 := by
  refine ⟨?_, ?_, by decide⟩
  · exact ((no_pipelining
      [{ message := .AnalyzeJapaneseLyricsType sampleUfData, nonce := 1 },
       { message := .AnalyzeJapaneseLyricsType sampleUfData, nonce := 2 }]).2.1
      0 (by decide)).2.2
  · exact ((no_pipelining
      [{ message := .AnalyzeJapaneseLyricsType sampleUfData, nonce := 1 },
       { message := .AnalyzeJapaneseLyricsType sampleUfData, nonce := 2 }]).2.1
      1 (by decide)).2.1

/-- Helper: the receive loop of `runner_entry_inner` never answers a
request with the terminal `Panic` marker; that marker is only produced by
the panic handler of `runner_entry`. -/
theorem handleRequest_not_panic (h : Handlers) (r : RequestMessageData) :
    (handleRequest h r).isPanic = false := by
  cases r <;> rfl

/-- Counterexample to claim C3 as stated: after the host thread has
panicked and exited, a subsequent caller does not observe a terminal Fault
response — its send on the request channel (which has no live receiver any
more) fails, surfacing an infrastructure error instead of the Fault
outcome. -/
theorem fault_not_observed_by_subsequent_caller :
    send_and_receive false []
        { message := .AnalyzeJapaneseLyricsType sampleUfData, nonce := 9 }
      = CallOutcome.sendFailed
    ∧ CallOutcome.sendFailed ≠ CallOutcome.panicked := by
  refine ⟨rfl, ?_⟩
  intro h
  exact CallOutcome.noConfusion h

/-- Claim C3 as amended: a host-thread panic is converted into exactly one
terminal `Panic` message appended to the response stream (first conjunct);
a caller that dequeues it observes it before any nonce check and panics
rather than hanging (second conjunct); a caller that submits after the
thread exited fails fast on the closed request channel (third conjunct);
and a caller whose receives drain without a match before the channel
closes fails fast with a receive error (fourth conjunct) — so no caller
hangs, but only the single caller that dequeues the `Panic` message
observes the Fault itself. -/
theorem panic_containment
    (h : Handlers) (processed : List (Message RequestMessageData))
    (panicNonce : Nat) :
    ((runner_entry h processed true panicNonce).countP
        (fun m => m.message.isPanic) = 1)
    ∧ (∀ (n : Nat) (pre post : List (Message ResponseMessageData))
        (pm : Message ResponseMessageData),
        (∀ m2 ∈ pre, m2.nonce ≠ n ∧ m2.message.isPanic = false) →
        pm.message.isPanic = true →
        receiveLoop n (pre ++ pm :: post) = .panicked)
    ∧ (∀ (delivered : List (Message ResponseMessageData))
        (req : Message RequestMessageData),
        send_and_receive false delivered req = .sendFailed)
    ∧ (∀ (n : Nat) (ms : List (Message ResponseMessageData)),
        (∀ m2 ∈ ms, m2.nonce ≠ n ∧ m2.message.isPanic = false) →
        receiveLoop n ms = .recvFailed) := by
  refine ⟨?_, ?_, fun delivered req => rfl, ?_⟩
  · have hmem : ∀ reqs : List (Message RequestMessageData),
        ∀ m ∈ runnerLoop h reqs, m.message.isPanic = false := by
      intro reqs
      induction reqs with
      | nil => intro m hm; cases hm
      | cons r rest ih =>
        intro m hm
        rcases List.mem_cons.mp hm with rfl | hm2
        · exact handleRequest_not_panic h r.message
        · exact ih m hm2
    simp [runner_entry, List.countP_append,
      List.countP_cons, ResponseMessageData.isPanic]
    exact fun a ha => hmem processed a ha
  · intro n pre post pm hpre hpm
    induction pre with
    | nil => simp [receiveLoop, hpm]
    | cons p rest ih =>
      have hp := hpre p (by simp)
      have hrest : ∀ m2 ∈ rest, m2.nonce ≠ n ∧ m2.message.isPanic = false :=
        fun m2 hm2 => hpre m2 (by simp [hm2])
      have hne : ¬(n = p.nonce) := fun hq => hp.1 hq.symm
      simp [receiveLoop, hp.2, hne, ih hrest]
  · intro n ms hms
    induction ms with
    | nil => rfl
    | cons p rest ih =>
      have hp := hms p (by simp)
      have hrest : ∀ m2 ∈ rest, m2.nonce ≠ n ∧ m2.message.isPanic = false :=
        fun m2 hm2 => hms m2 (by simp [hm2])
      have hne : ¬(n = p.nonce) := fun hq => hp.1 hq.symm
      simp [receiveLoop, hp.2, hne, ih hrest]

/-- Witness for the amended claim C3 at concrete inputs: one Panic message
in the faulted stream; a caller dequeuing it panics; a subsequent caller's
send fails; a caller drained without a match gets a receive error. -/
theorem panic_containment_witness :
    ((runner_entry trivialHandlers [] true 4).countP
        (fun m => m.message.isPanic) = 1)
    ∧ receiveLoop 5 [{ message := .Panic, nonce := 4 }] = .panicked
    ∧ send_and_receive false []
        { message := .AnalyzeJapaneseLyricsType sampleUfData, nonce := 9 }
        = .sendFailed
    ∧ receiveLoop 5 [{ message := .Parse (.ok sampleUfData), nonce := 3 }]
        = .recvFailed := by
  refine ⟨(panic_containment trivialHandlers [] 4).1, ?_, ?_, ?_⟩
  · exact (panic_containment trivialHandlers [] 4).2.1 5 [] []
      { message := .Panic, nonce := 4 } (by simp) rfl
  · exact (panic_containment trivialHandlers [] 4).2.2.1 []
      { message := .AnalyzeJapaneseLyricsType sampleUfData, nonce := 9 }
  · exact (panic_containment trivialHandlers [] 4).2.2.2 5
      [{ message := .Parse (.ok sampleUfData), nonce := 3 }]
      (by intro m2 hm2
          simp at hm2
          subst hm2
          exact ⟨by decide, rfl⟩)

/-- Immediate job of the cooperative scheduler (`NativeJob` in
`job_queue.rs`): invoking it either succeeds or fails (`ok`), and may
enqueue further immediate jobs at the back of the queue (`spawned`), which
is how the interpreter schedules promise continuations during a call. -/
inductive Job where
  | mk (ok : Bool) (spawned : List Job)

/-- Result flag of invoking a job. -/
def Job.ok : Job → Bool
  | .mk k _ => k

/-- Jobs enqueued while this job runs. -/
def Job.spawned : Job → List Job
  | .mk _ s => s

mutual
/-- Size of a job tree, used as the termination measure of the drain. -/
def Job.size : Job → Nat
  | .mk _ s => 1 + sizeListJob s
/-- Total size of a queue of job trees. -/
def sizeListJob : List Job → Nat
  | [] => 0
  | j :: rest => Job.size j + sizeListJob rest
end

/-- Additivity of the queue size measure over concatenation. -/
theorem sizeListJob_append (a b : List Job) :
    sizeListJob (a ++ b) = sizeListJob a + sizeListJob b := by
  induction a with
  | nil => simp [sizeListJob]
  | cons j rest ih => simp [sizeListJob, ih]; ring

mutual
/-- Transitive success of a job: it succeeds and so does everything it
spawns. -/
def Job.allOk : Job → Bool
  | .mk k s => k && allOkListJob s
/-- Transitive success of a queue of jobs. -/
def allOkListJob : List Job → Bool
  | [] => true
  | j :: rest => Job.allOk j && allOkListJob rest
end

/-- Drain of the immediate-job queue, from `TokioJobQueue::run_jobs` in
`job_queue.rs`: jobs are popped from the front one at a time; a successful
call leaves its newly enqueued jobs at the back of the queue and the loop
continues; a failed call clears the whole remaining queue and returns.
The first component is the sequence of jobs actually invoked, in
invocation order; the second is the queue left behind (always empty:
either drained or cleared). -/
def run_jobs : List Job → List Job × List Job
  | [] => ([], [])
  | j :: rest =>
    if j.ok then
      let r := run_jobs (rest ++ j.spawned)
      (j :: r.1, r.2)
    else ([j], [])
termination_by l => sizeListJob l
decreasing_by
  cases j with
  | mk k s =>
    simp [sizeListJob_append, sizeListJob, Job.size, Job.spawned]
    omega

/-- Helper: transitive success of a queue gives success of each member. -/
theorem allOkListJob_mem {s : List Job} (hs : allOkListJob s = true) :
    ∀ j ∈ s, Job.allOk j = true := by
  induction s with
  | nil => intro j hj; cases hj
  | cons a rest ih =>
    intro j hj
    simp [allOkListJob, Bool.and_eq_true] at hs
    rcases List.mem_cons.mp hj with rfl | hj2
    · exact hs.1
    · exact ih hs.2 j hj2

/-- Helper: with all jobs transitively succeeding, every initially queued
job is invoked, in queue (FIFO) order; proved by strong induction on the
size measure, generalized over the queue. -/
theorem run_jobs_sublist_aux (n : Nat) :
    ∀ l : List Job, sizeListJob l ≤ n → (∀ j ∈ l, Job.allOk j = true) →
      l.Sublist (run_jobs l).1 := by
  induction n with
  | zero =>
    intro l hsize _
    cases l with
    | nil => simp
    | cons j rest =>
      exfalso
      cases j with
      | mk k s => simp [sizeListJob, Job.size] at hsize
  | succ n ih =>
    intro l hsize hall
    cases l with
    | nil => simp
    | cons j rest =>
      have hj := hall j (by simp)
      cases j with
      | mk k s =>
        simp [Job.allOk, Bool.and_eq_true] at hj
        have hok : Job.ok (.mk k s) = true := by simp [Job.ok, hj.1]
        have hsize2 : sizeListJob (rest ++ Job.spawned (.mk k s)) ≤ n := by
          simp [sizeListJob_append, sizeListJob, Job.size, Job.spawned] at hsize ⊢
          omega
        have hall2 : ∀ j2 ∈ rest ++ Job.spawned (.mk k s), Job.allOk j2 = true := by
          intro j2 hj2
          rcases List.mem_append.mp hj2 with h2 | h2
          · exact hall j2 (by simp [h2])
          · exact allOkListJob_mem hj.2 j2 h2
        have hrec := ih (rest ++ Job.spawned (.mk k s)) hsize2 hall2
        have hsub : rest.Sublist (run_jobs (rest ++ Job.spawned (.mk k s))).1 :=
          (List.sublist_append_left rest (Job.spawned (.mk k s))).trans hrec
        rw [run_jobs]
        simp only [hok, if_true]
        exact List.Sublist.cons₂ _ hsub

/-- Claim C5: the scheduler drains the immediate-job queue completely in
FIFO order — with every job (transitively) succeeding, the initial queue
is invoked in order as a sublist of the invocation sequence (first
conjunct) — and on the first failing job it invokes that job, clears all
remaining immediate jobs and stops, so the invocation sequence is exactly
the successful prefix plus the failing job, each invoked once, and the
queue is left empty (second conjunct). -/
theorem run_jobs_drain_fifo :
    (∀ l : List Job, (∀ j ∈ l, Job.allOk j = true) →
      l.Sublist (run_jobs l).1)
    ∧ (∀ (f : Job) (before after : List Job), f.ok = false →
      (∀ j ∈ before, j.ok = true) →
      run_jobs (before ++ f :: after) = (before ++ [f], [])) := by
  constructor
  · intro l hall
    exact run_jobs_sublist_aux (sizeListJob l) l (Nat.le_refl _) hall
  · intro f before
    induction before with
    | nil =>
      intro after hf _
      rw [List.nil_append, run_jobs]
      simp [hf]
    | cons b rest ih =>
      intro after hf hball
      have hb : b.ok = true := hball b (by simp)
      have hrest : ∀ j ∈ rest, j.ok = true := fun j hj => hball j (by simp [hj])
      have hassoc : (rest ++ f :: after) ++ b.spawned
          = rest ++ f :: (after ++ b.spawned) := by
        simp
      rw [List.cons_append, run_jobs]
      simp only [hb, if_true, hassoc, ih (after ++ b.spawned) hf hrest]
      simp

/-- Witness for claim C5 at concrete inputs: a two-job all-success queue is
drained in order, and a queue whose second job fails invokes the first two
jobs only and clears the rest. -/
theorem run_jobs_drain_fifo_witness :
    [Job.mk true [], Job.mk true []].Sublist
      (run_jobs [Job.mk true [], Job.mk true []]).1
    ∧ run_jobs ([Job.mk true []] ++ Job.mk false [] :: [Job.mk true []])
        = ([Job.mk true [], Job.mk false []], []) := by
  constructor
  · exact run_jobs_drain_fifo.1 [Job.mk true [], Job.mk true []]
      (by intro j hj
          rcases List.mem_cons.mp hj with rfl | hj2
          · rfl
          · simp at hj2
            subst hj2
            rfl)
  · exact run_jobs_drain_fifo.2 (Job.mk false []) [Job.mk true []]
      [Job.mk true []] rfl
      (by intro j hj
          simp at hj
          subst hj
          rfl)

/-- UTF-8 encoding of one Unicode scalar value, as produced by
`str::as_bytes` in `js_impls.rs` (a Rust `String` is UTF-8 by
construction). -/
def utf8EncodeChar (n : Nat) : List Nat :=
  if n < 0x80 then [n]
  else if n < 0x800 then [0xC0 + n / 64, 0x80 + n % 64]
  else if n < 0x10000 then
    [0xE0 + n / 4096, 0x80 + n / 64 % 64, 0x80 + n % 64]
  else
    [0xF0 + n / 0x40000, 0x80 + n / 4096 % 64, 0x80 + n / 64 % 64,
      0x80 + n % 64]

/-- UTF-8 byte sequence of a character list. -/
def utf8EncodeList : List Char → List Nat
  | [] => []
  | c :: rest => utf8EncodeChar c.toNat ++ utf8EncodeList rest

/-- Lower bound of the second byte of a multi-byte UTF-8 sequence, per the
WHATWG UTF-8 decoder implemented by `encoding_rs` (leads `E0` and `F0`
exclude overlong forms). -/
def contLo (lead : Nat) : Nat :=
  if lead = 0xE0 then 0xA0 else if lead = 0xF0 then 0x90 else 0x80

/-- Upper bound of the second byte of a multi-byte UTF-8 sequence, per the
WHATWG UTF-8 decoder (lead `ED` excludes surrogates, lead `F4` values
above `U+10FFFF`). -/
def contHi (lead : Nat) : Nat :=
  if lead = 0xED then 0x9F else if lead = 0xF4 then 0x8F else 0xBF

/-- WHATWG UTF-8 decode with replacement, the byte-level behaviour of
`encoding_rs` for the UTF-8 encoding as invoked by `decode` in
`js_impls.rs`: valid sequences decode to their scalar value, malformed
input yields `U+FFFD` and resynchronizes at the offending byte. -/
def utf8DecodeCore (l : List Nat) : List Char :=
  match l with
  | [] => []
  | b1 :: t1 =>
    if b1 < 0x80 then Char.ofNat b1 :: utf8DecodeCore t1
    else if 0xC2 ≤ b1 ∧ b1 ≤ 0xDF then
      match t1 with
      | b2 :: t2 =>
        if 0x80 ≤ b2 ∧ b2 ≤ 0xBF then
          Char.ofNat ((b1 - 0xC0) * 64 + (b2 - 0x80)) :: utf8DecodeCore t2
        else Char.ofNat 0xFFFD :: utf8DecodeCore (b2 :: t2)
      | [] => [Char.ofNat 0xFFFD]
    else if 0xE0 ≤ b1 ∧ b1 ≤ 0xEF then
      match t1 with
      | b2 :: t2 =>
        if contLo b1 ≤ b2 ∧ b2 ≤ contHi b1 then
          match t2 with
          | b3 :: t3 =>
            if 0x80 ≤ b3 ∧ b3 ≤ 0xBF then
              Char.ofNat ((b1 - 0xE0) * 4096 + (b2 - 0x80) * 64 + (b3 - 0x80))
                :: utf8DecodeCore t3
            else Char.ofNat 0xFFFD :: utf8DecodeCore (b3 :: t3)
          | [] => [Char.ofNat 0xFFFD]
        else Char.ofNat 0xFFFD :: utf8DecodeCore (b2 :: t2)
      | [] => [Char.ofNat 0xFFFD]
    else if 0xF0 ≤ b1 ∧ b1 ≤ 0xF4 then
      match t1 with
      | b2 :: t2 =>
        if contLo b1 ≤ b2 ∧ b2 ≤ contHi b1 then
          match t2 with
          | b3 :: t3 =>
            if 0x80 ≤ b3 ∧ b3 ≤ 0xBF then
              match t3 with
              | b4 :: t4 =>
                if 0x80 ≤ b4 ∧ b4 ≤ 0xBF then
                  Char.ofNat ((b1 - 0xF0) * 0x40000 + (b2 - 0x80) * 4096
                      + (b3 - 0x80) * 64 + (b4 - 0x80))
                    :: utf8DecodeCore t4
                else Char.ofNat 0xFFFD :: utf8DecodeCore (b4 :: t4)
              | [] => [Char.ofNat 0xFFFD]
            else Char.ofNat 0xFFFD :: utf8DecodeCore (b3 :: t3)
          | [] => [Char.ofNat 0xFFFD]
        else Char.ofNat 0xFFFD :: utf8DecodeCore (b2 :: t2)
      | [] => [Char.ofNat 0xFFFD]
    else Char.ofNat 0xFFFD :: utf8DecodeCore t1

/-- Pairing of bytes into UTF-16 code units (the trailing odd byte, if
any, is handled by `utf16Decode`). -/
def utf16Units (bigEndian : Bool) : List Nat → List Nat
  | b1 :: b2 :: rest =>
    (if bigEndian then b1 * 256 + b2 else b2 * 256 + b1)
      :: utf16Units bigEndian rest
  | _ => []

/-- UTF-16 code unit sequence to characters, with `U+FFFD` for lone
surrogates, per the WHATWG shared UTF-16 decoder. -/
def utf16DecodeUnits : List Nat → List Char
  | [] => []
  | u :: rest =>
    if u < 0xD800 ∨ 0xDFFF < u then Char.ofNat u :: utf16DecodeUnits rest
    else if u < 0xDC00 then
      match rest with
      | u2 :: rest2 =>
        if 0xDC00 ≤ u2 ∧ u2 ≤ 0xDFFF then
          Char.ofNat (0x10000 + (u - 0xD800) * 1024 + (u2 - 0xDC00))
            :: utf16DecodeUnits rest2
        else Char.ofNat 0xFFFD :: utf16DecodeUnits (u2 :: rest2)
      | [] => [Char.ofNat 0xFFFD]
    else Char.ofNat 0xFFFD :: utf16DecodeUnits rest

/-- UTF-16 byte-level decode (both endiannesses), reached only through BOM
sniffing; a trailing odd byte is malformed and yields `U+FFFD`. -/
def utf16Decode (bigEndian : Bool) (bytes : List Nat) : List Char :=
  utf16DecodeUnits (utf16Units bigEndian bytes)
    ++ (if bytes.length % 2 = 1 then [Char.ofNat 0xFFFD] else [])

/-- Encodings of the `encoding_rs` registry reachable from the modelled
label set; the claims only exercise the UTF-8 row, and the unmodelled
rows of the WHATWG registry are out of scope (their labels do not occur
in any theorem below). -/
inductive Encoding where
  | utf8
  | shiftJis
deriving DecidableEq, Repr

/-- WHATWG labels of the UTF-8 encoding. -/
def utf8Labels : List String :=
  ["unicode-1-1-utf-8", "unicode11utf8", "unicode20utf8", "utf-8", "utf8",
    "x-unicode20utf8"]

/-- WHATWG labels of the Shift_JIS encoding. -/
def shiftJisLabels : List String :=
  ["csshiftjis", "ms932", "ms_kanji", "shift-jis", "shift_jis", "sjis",
    "windows-31j", "x-sjis"]

/-- ASCII lowercasing of a label, the case-insensitive part of WHATWG
label matching done by `Encoding::for_label`. -/
def asciiLower (s : String) : String :=
  ⟨s.data.map (fun c =>
    if 0x41 ≤ c.toNat ∧ c.toNat ≤ 0x5A then Char.ofNat (c.toNat + 32) else c)⟩

/-- Model of `encoding_rs::Encoding::for_label` restricted to the modelled
rows: a label is matched ASCII-case-insensitively against the registry;
an unmatched label yields `None`.  The label "x" used below is not a label
of any row of the real registry either. -/
def Encoding.for_label (label : String) : Option Encoding :=
  let l := asciiLower label
  if l ∈ utf8Labels then some .utf8
  else if l ∈ shiftJisLabels then some .shiftJis
  else none

/-- Model of `encoding_rs::Encoding::decode` (the variant called in
`js_impls.rs`), which performs BOM sniffing before decoding: a UTF-8 or
UTF-16 byte-order mark overrides the labelled encoding and is removed from
the output.  The byte-level Shift_JIS index is not repository data and is
passed in as a parameter; no theorem depends on it. -/
def Encoding.decodeBytes (shiftJisDecoder : List Nat → List Char)
    (e : Encoding) (bytes : List Nat) : List Char :=
  if bytes.take 3 = [0xEF, 0xBB, 0xBF] then utf8DecodeCore (bytes.drop 3)
  else if bytes.take 2 = [0xFF, 0xFE] then utf16Decode false (bytes.drop 2)
  else if bytes.take 2 = [0xFE, 0xFF] then utf16Decode true (bytes.drop 2)
  else
    match e with
    | .utf8 => utf8DecodeCore bytes
    | .shiftJis => shiftJisDecoder bytes

/-- Outcome of the `decode` host capability as observed by the hosted
program and the host thread: a successful text, a JavaScript error
returned to the caller (`JsNativeError`), or a panic of the host thread
(an `.expect(..)` failure). -/
inductive DecodeOutcome where
  | ok (text : String)
  | jsError (msg : String)
  | panicked (msg : String)
deriving DecidableEq, Repr

/-- Test for the error-returned-to-the-hosted-program outcome. -/
def DecodeOutcome.isJsError : DecodeOutcome → Bool
  | .jsError _ => true
  | _ => false

/-- Model of `encode` in `js_impls.rs`: a non-string argument is answered
with a `JsNativeError`; a string is rendered as its UTF-8 bytes via
`str::as_bytes` (the `to_std_string` failure on unpaired surrogates cannot
arise for the modelled well-formed strings). -/
def encode (arg : JsVal) : Except String (List Nat) :=
  match arg with
  | .str s => .ok (utf8EncodeList s.data)
  | .other => .error "Invalid string"

/-- Model of `decode` in `js_impls.rs`: a non-string encoding argument is
answered with a `JsNativeError`; otherwise the label is resolved with
`Encoding::for_label`, whose `None` result hits
`.expect("Failed to get encoding")` and panics the host thread; on
success the bytes are decoded with BOM sniffing.  The byte buffer is taken
after the `Uint8Array` marshalling of the source. -/
def decode (shiftJisDecoder : List Nat → List Char) (bytes : List Nat)
    (encodingArg : JsVal) : DecodeOutcome :=
  match encodingArg with
  | .other => .jsError "Invalid encoding"
  | .str label =>
    match Encoding.for_label label with
    | none => .panicked "Failed to get encoding"
    | some e => .ok ⟨Encoding.decodeBytes shiftJisDecoder e bytes⟩

/-- Helper: decoding the UTF-8 encoding of one valid scalar value yields
exactly that scalar, whatever follows. -/
theorem utf8DecodeCore_encodeChar (n : Nat)
    (hval : n < 0xD800 ∨ (0xDFFF < n ∧ n < 0x110000)) (rest : List Nat) :
    utf8DecodeCore (utf8EncodeChar n ++ rest)
      = Char.ofNat n :: utf8DecodeCore rest := by
  by_cases h1 : n < 0x80
  · have he : utf8EncodeChar n = [n] := by simp [utf8EncodeChar, h1]
    rw [he, List.cons_append, List.nil_append, utf8DecodeCore.eq_def]
    simp [h1]
  · by_cases h2 : n < 0x800
    · have he : utf8EncodeChar n = [0xC0 + n / 64, 0x80 + n % 64] := by
        simp [utf8EncodeChar, h1, h2]
      have e1 : ¬(0xC0 + n / 64 < 0x80) := by omega
      have e2 : 0xC2 ≤ 0xC0 + n / 64 ∧ 0xC0 + n / 64 ≤ 0xDF := by omega
      have e3 : 0x80 ≤ 0x80 + n % 64 ∧ 0x80 + n % 64 ≤ 0xBF := by omega
      rw [he]
      simp only [List.cons_append, List.nil_append]
      rw [utf8DecodeCore.eq_def]
      simp [e1, e2, e3]
      congr 1
      omega
    · by_cases h3 : n < 0x10000
      · have he : utf8EncodeChar n
            = [0xE0 + n / 4096, 0x80 + n / 64 % 64, 0x80 + n % 64] := by
          simp [utf8EncodeChar, h1, h2, h3]
        have e1 : ¬(0xE0 + n / 4096 < 0x80) := by omega
        have e2 : ¬(0xC2 ≤ 0xE0 + n / 4096 ∧ 0xE0 + n / 4096 ≤ 0xDF) := by
          omega
        have e3 : 0xE0 ≤ 0xE0 + n / 4096 ∧ 0xE0 + n / 4096 ≤ 0xEF := by omega
        have e4 : contLo (0xE0 + n / 4096) ≤ 0x80 + n / 64 % 64
            ∧ 0x80 + n / 64 % 64 ≤ contHi (0xE0 + n / 4096) := by
          unfold contLo contHi
          rcases hval with hv | hv <;> constructor <;> split_ifs <;> omega
        have e5 : 0x80 ≤ 0x80 + n % 64 ∧ 0x80 + n % 64 ≤ 0xBF := by omega
        rw [he]
        simp only [List.cons_append, List.nil_append]
        rw [utf8DecodeCore.eq_def]
        simp [e1, e2, e3, e4, e5]
        congr 1
        omega
      · have h4 : n < 0x110000 := by rcases hval with hv | hv <;> omega
        have he : utf8EncodeChar n
            = [0xF0 + n / 0x40000, 0x80 + n / 4096 % 64, 0x80 + n / 64 % 64,
                0x80 + n % 64] := by
          simp [utf8EncodeChar, h1, h2, h3]
        have e1 : ¬(0xF0 + n / 0x40000 < 0x80) := by omega
        have e2 : ¬(0xC2 ≤ 0xF0 + n / 0x40000 ∧ 0xF0 + n / 0x40000 ≤ 0xDF) := by
          omega
        have e3 : ¬(0xE0 ≤ 0xF0 + n / 0x40000 ∧ 0xF0 + n / 0x40000 ≤ 0xEF) := by
          omega
        have e4 : 0xF0 ≤ 0xF0 + n / 0x40000 ∧ 0xF0 + n / 0x40000 ≤ 0xF4 := by
          omega
        have e5 : contLo (0xF0 + n / 0x40000) ≤ 0x80 + n / 4096 % 64
            ∧ 0x80 + n / 4096 % 64 ≤ contHi (0xF0 + n / 0x40000) := by
          unfold contLo contHi
          constructor <;> split_ifs <;> omega
        have e6 : 0x80 ≤ 0x80 + n / 64 % 64 ∧ 0x80 + n / 64 % 64 ≤ 0xBF := by
          omega
        have e7 : 0x80 ≤ 0x80 + n % 64 ∧ 0x80 + n % 64 ≤ 0xBF := by omega
        rw [he]
        simp only [List.cons_append, List.nil_append]
        rw [utf8DecodeCore.eq_def]
        simp [e1, e2, e3, e4, e5, e6, e7]
        congr 1
        omega

/-- Helper: UTF-8 decode is a left inverse of UTF-8 encode on character
lists (every `Char` is a valid scalar value by construction). -/
theorem utf8DecodeCore_encodeList (l : List Char) :
    utf8DecodeCore (utf8EncodeList l) = l := by
  induction l with
  | nil => rfl
  | cons c cs ih =>
    have hv : c.toNat < 0xD800 ∨ (0xDFFF < c.toNat ∧ c.toNat < 0x110000) :=
      c.valid
    rw [utf8EncodeList, utf8DecodeCore_encodeChar c.toNat hv, ih,
      Char.ofNat_toNat]

/-- Helper: the UTF-8 encoding of a string whose first character is not
`U+FEFF` starts with none of the three byte-order marks, so BOM sniffing
leaves it alone. -/
theorem utf8EncodeList_no_bom (c : Char) (cs : List Char)
    (hbom : c.toNat ≠ 0xFEFF) :
    (utf8EncodeList (c :: cs)).take 3 ≠ [0xEF, 0xBB, 0xBF]
    ∧ (utf8EncodeList (c :: cs)).take 2 ≠ [0xFF, 0xFE]
    ∧ (utf8EncodeList (c :: cs)).take 2 ≠ [0xFE, 0xFF] := by
  have hval : c.toNat < 0xD800 ∨ (0xDFFF < c.toNat ∧ c.toNat < 0x110000) :=
    c.valid
  rw [utf8EncodeList]
  by_cases h1 : c.toNat < 0x80
  · have he : utf8EncodeChar c.toNat = [c.toNat] := by
      simp [utf8EncodeChar, h1]
    rw [he]
    refine ⟨?_, ?_, ?_⟩ <;> intro hc <;> simp [List.take] at hc <;> omega
  · by_cases h2 : c.toNat < 0x800
    · have he : utf8EncodeChar c.toNat
          = [0xC0 + c.toNat / 64, 0x80 + c.toNat % 64] := by
        simp [utf8EncodeChar, h1, h2]
      rw [he]
      refine ⟨?_, ?_, ?_⟩ <;> intro hc <;> simp [List.take] at hc <;> omega
    · by_cases h3 : c.toNat < 0x10000
      · have he : utf8EncodeChar c.toNat
            = [0xE0 + c.toNat / 4096, 0x80 + c.toNat / 64 % 64,
                0x80 + c.toNat % 64] := by
          simp [utf8EncodeChar, h1, h2, h3]
        rw [he]
        refine ⟨?_, ?_, ?_⟩ <;> intro hc <;> simp [List.take] at hc <;> omega
      · have he : utf8EncodeChar c.toNat
            = [0xF0 + c.toNat / 0x40000, 0x80 + c.toNat / 4096 % 64,
                0x80 + c.toNat / 64 % 64, 0x80 + c.toNat % 64] := by
          simp [utf8EncodeChar, h1, h2, h3]
        rw [he]
        refine ⟨?_, ?_, ?_⟩ <;> intro hc <;> simp [List.take] at hc <;> omega

/-- Counterexample to claim C6 as stated: at the concrete unrecognized
label "x" (not a label of any registry row), `decode` does not return an
error to the hosted program — the `.expect("Failed to get encoding")`
panics the host thread instead. -/
theorem decode_unknown_label_panics :
    decode (fun _ => []) [] (.str "x") = .panicked "Failed to get encoding"
    ∧ (decode (fun _ => []) [] (.str "x")).isJsError = false := by
  exact ⟨by decide, by decide⟩

/-- Claim C6 as amended: with an unrecognized encoding label the decode
capability panics the host thread (surfacing as a terminal fault) rather
than returning an error to the hosted program; it returns an error to the
hosted program when the encoding argument is not a string. -/
theorem decode_label_handling (sjd : List Nat → List Char)
    (bytes : List Nat) (label : String)
    (h : Encoding.for_label label = none) :
    decode sjd bytes (.str label) = .panicked "Failed to get encoding"
    ∧ decode sjd bytes .other = .jsError "Invalid encoding" := by
  constructor
  · simp [decode, h]
  · rfl

/-- Witness for the amended claim C6 at concrete inputs. -/
theorem decode_label_handling_witness :
    decode (fun _ => []) [0x41] (.str "x")
      = .panicked "Failed to get encoding"
    ∧ decode (fun _ => []) [0x41] .other = .jsError "Invalid encoding" :=
  decode_label_handling (fun _ => []) [0x41] "x" (by decide)

/-- Counterexample to claim C7 as stated: for the string consisting of the
single character `U+FEFF`, encoding to UTF-8 yields the UTF-8 byte-order
mark, which the BOM-sniffing decode of `encoding_rs` strips, so the
round-trip returns the empty string instead of the original. -/
theorem utf8_roundtrip_bom_counterexample :
    encode (.str "﻿") = .ok [0xEF, 0xBB, 0xBF]
    ∧ decode (fun _ => []) [0xEF, 0xBB, 0xBF] (.str "utf-8") = .ok ""
    ∧ ("" : String) ≠ "﻿" := by
  exact ⟨rfl, by decide, by decide⟩

/-- Claim C7 as amended: for every string whose first character is not
`U+FEFF`, decoding with the "utf-8" label the bytes produced by the
encode capability yields the string back; a leading `U+FEFF` would be
stripped by BOM sniffing (see the counterexample). -/
theorem utf8_roundtrip (sjd : List Nat → List Char) (s : String)
    (hbom : ∀ c, s.data.head? = some c → c.toNat ≠ 0xFEFF) :
    encode (.str s) = .ok (utf8EncodeList s.data)
    ∧ decode sjd (utf8EncodeList s.data) (.str "utf-8") = .ok s := by
  refine ⟨rfl, ?_⟩
  have hlabel : Encoding.for_label "utf-8" = some .utf8 := by decide
  obtain ⟨l⟩ := s
  have hdb : Encoding.decodeBytes sjd .utf8 (utf8EncodeList l) = l := by
    cases l with
    | nil => rfl
    | cons c cs =>
      have hc : c.toNat ≠ 0xFEFF := hbom c rfl
      have hno := utf8EncodeList_no_bom c cs hc
      unfold Encoding.decodeBytes
      rw [if_neg hno.1, if_neg hno.2.1, if_neg hno.2.2]
      exact utf8DecodeCore_encodeList (c :: cs)
  simp [decode, hlabel, hdb]

/-- Witness for the amended claim C7 at the concrete string "test" (the
round-trip example of the specification). -/
theorem utf8_roundtrip_witness :
    encode (.str "test") = .ok (utf8EncodeList "test".data)
    ∧ decode (fun _ => []) (utf8EncodeList "test".data) (.str "utf-8")
      = .ok "test" :=
  utf8_roundtrip (fun _ => []) "test"
    (by intro c hc
        have h2 : some 't' = some c := hc
        cases h2
        decide)
